import Mathlib

/-!
# Verification of the zone-count logger (`src/main.py`)

Shallow embedding of the program in `src/main.py`: a linear
fetch → parse → compare → append pipeline over a CSV log file.

Modelling conventions:
* A file state is `Option String`: `none` is an absent file, `some c` is a
  file whose raw byte content is `c` (the program reads/writes UTF-8 text).
* Python exceptions that the program can actually raise or catch are the
  constructors of `PyErr`; fallible code returns `Except PyErr _`.
* JSON values are `JVal` (JSON booleans and non-integer numbers are not
  needed by any claim and are omitted).  `json.loads` on an invalid body is
  modelled by the `none` case of the `Option JVal` body argument.
* The `csv` module is modelled for the unquoted fragment the program uses:
  records are lines terminated by `"\n"` (a trailing `"\r"` is stripped, so
  `"\r\n"`-terminated files written by `csv.writer` read back correctly),
  a blank line is the empty record, and fields are separated by `","`.
  Field quoting is not modelled: no row this development reasons about
  contains a separator character inside a field.
-/

instance {ε α : Type _} [DecidableEq ε] [DecidableEq α] : DecidableEq (Except ε α) := fun x y =>
  match x, y with
  | .ok a, .ok b =>
    if h : a = b then isTrue (by rw [h]) else isFalse (by intro hc; cases hc; exact h rfl)
  | .error e, .error f =>
    if h : e = f then isTrue (by rw [h]) else isFalse (by intro hc; cases hc; exact h rfl)
  | .ok _, .error _ => isFalse (by intro hc; cases hc)
  | .error _, .ok _ => isFalse (by intro hc; cases hc)

/-- The Python exceptions relevant to `src/main.py`. -/
inductive PyErr where
  | indexError
  | keyError
  | typeError
  | jsonDecodeError
  deriving DecidableEq, Repr

/-- JSON values as decoded by `json.loads` (restricted to the constructors
the claims exercise; booleans and fractional numbers are omitted). -/
inductive JVal where
  | jnull
  | jint (n : Int)
  | jstr (s : String)
  | jarr (xs : List JVal)
  | jobj (fields : List (String × JVal))

/-- Python subscription `v[k]` with a string key: succeeds only on a dict
containing the key (`KeyError` if absent, `TypeError` on a non-dict). -/
def pySubscript (v : JVal) (k : String) : Except PyErr JVal :=
  match v with
  | .jobj fields =>
    match fields.find? (fun p => p.1 = k) with
    | some p => .ok p.2
    | none => .error .keyError
  | _ => .error .typeError

/-- Python `+` on the modelled values: ints add, strings and lists
concatenate, every mixed combination raises `TypeError`. -/
def pyAdd (a b : JVal) : Except PyErr JVal :=
  match a, b with
  | .jint x, .jint y => .ok (.jint (x + y))
  | .jstr x, .jstr y => .ok (.jstr (x ++ y))
  | .jarr x, .jarr y => .ok (.jarr (x ++ y))
  | _, _ => .error .typeError

/-- Python `str()` as used by `csv.writer` on a field.  The program only
ever writes ints and strings; the remaining constructors get a placeholder
rendering (their exact text is irrelevant to every claim). -/
def pyStr (v : JVal) : String :=
  match v with
  | .jint n => Int.repr n
  | .jstr s => s
  | .jnull => "None"
  | .jarr _ => "<list>"
  | .jobj _ => "<dict>"

/-- Python `==` between a value decoded from JSON and an `int`: numeric
equality on ints, `False` for every other type (no coercion). -/
def jvalEqInt (v : JVal) (n : Int) : Bool :=
  match v with
  | .jint m => m == n
  | _ => false

/-- ASCII whitespace, as stripped by Python `int()` around a numeral. -/
def isPySpace (c : Char) : Bool :=
  c = ' ' || c = '\t' || c = '\n' || c = '\r' || c = '\x0b' || c = '\x0c'

/-- Lower-case one ASCII character (Python `str.lower` restricted to the
ASCII range, which is all the header comparison ever meets). -/
def pyLowerChar (c : Char) : Char :=
  if 'A' ≤ c && c ≤ 'Z' then Char.ofNat (c.toNat + 32) else c

/-- Python `str.lower` on the modelled (ASCII) fragment. -/
def pyLower (s : String) : String :=
  String.mk (s.data.map pyLowerChar)

/-- Python `int(s)`: optional surrounding whitespace, optional sign, then a
nonempty run of decimal digits.  (Underscore separators and non-ASCII
digits, which CPython also accepts, are not modelled; no claim uses them.) -/
def pyInt? (s : String) : Option Int :=
  let t := ((s.data.dropWhile isPySpace).reverse.dropWhile isPySpace).reverse
  let sd : Bool × List Char :=
    match t with
    | '-' :: rest => (true, rest)
    | '+' :: rest => (false, rest)
    | _ => (false, t)
  if !sd.2.isEmpty && sd.2.all Char.isDigit then
    let n : Nat := sd.2.foldl (fun a c => 10 * a + (c.toNat - '0'.toNat)) 0
    some (if sd.1 then -(n : Int) else (n : Int))
  else none

/-! ## CSV record structure of a raw file content -/

/-- Split a character stream at every `'\n'`, keeping empty segments
(so the result is never `[]`). -/
def splitNL : List Char → List (List Char)
  | [] => [[]]
  | c :: cs =>
    if c = '\n' then [] :: splitNL cs
    else
      match splitNL cs with
      | l :: ls => (c :: l) :: ls
      | [] => [[c]]

/-- Split a character stream at every `','`, keeping empty segments. -/
def splitComma : List Char → List (List Char)
  | [] => [[]]
  | c :: cs =>
    if c = ',' then [] :: splitComma cs
    else
      match splitComma cs with
      | l :: ls => (c :: l) :: ls
      | [] => [[c]]

/-- Drop one trailing `'\r'` (the residue of a `"\r\n"` terminator). -/
def stripCR (l : List Char) : List Char :=
  match l.getLast? with
  | some c => if c = '\r' then l.dropLast else l
  | none => l

/-- A file ending in a newline has no record after that newline; an empty
file has no records at all. -/
def dropTrailingBlank (ls : List (List Char)) : List (List Char) :=
  match ls.getLast? with
  | some l => if l = [] then ls.dropLast else ls
  | none => ls

/-- One CSV record from one line: a blank line is the empty record,
otherwise the comma-separated fields. -/
def parseRecord (l : List Char) : List String :=
  if l = [] then [] else (splitComma l).map (fun f => String.mk f)

/-- The list of CSV records of a raw file content, as `csv.reader` yields
them for the unquoted fragment. -/
def csvRecords (s : String) : List (List String) :=
  (dropTrailingBlank (splitNL s.data)).map (fun l => parseRecord (stripCR l))

/-- Join fields with `","`, as `csv.writer` does for fields containing no
special characters. -/
def joinFields : List String → String
  | [] => ""
  | [f] => f
  | f :: fs => f ++ "," ++ joinFields fs

/-- One serialized CSV row, `"\r\n"`-terminated (the `csv.writer`
default). -/
def serializeRow (fields : List String) : String :=
  joinFields fields ++ "\r\n"

/-- The header row the program writes. -/
def headerLine : String :=
  serializeRow ["date", "com", "net", "total"]

/-- The case-insensitive header test the program applies to a row's first
cell (`row[0].lower() == "date"`), total version for stating invariants. -/
def rowIsHeaderB (r : List String) : Bool :=
  match r.head? with
  | some c0 => pyLower c0 = "date"
  | none => false

/-! ## The embedded program -/

/-- `fetch_zone_data` (src/main.py lines 17–23): the network transfer is
outside the model, so the function takes the decoded body; `none` stands
for a body that `json.loads` rejects. -/
def fetch_zone_data (body : Option JVal) : Except PyErr JVal :=
  match body with
  | none => .error .jsonDecodeError
  | some v => .ok v

/-- `parse_counts` (src/main.py lines 26–31):
`com = data["comDomainNameBase"]["domainNameCounts"]`,
`net = data["netDomainNameBase"]["domainNameCounts"]`,
`total = com + net`. -/
def parse_counts (data : JVal) : Except PyErr (JVal × JVal × JVal) :=
  match pySubscript data "comDomainNameBase" with
  | .error e => .error e
  | .ok comBase =>
    match pySubscript comBase "domainNameCounts" with
    | .error e => .error e
    | .ok com =>
      match pySubscript data "netDomainNameBase" with
      | .error e => .error e
      | .ok netBase =>
        match pySubscript netBase "domainNameCounts" with
        | .error e => .error e
        | .ok net =>
          match pyAdd com net with
          | .error e => .error e
          | .ok total => .ok (com, net, total)

/-- The `data_rows` selection of `get_latest_row` (src/main.py lines
41–44) as a pure function of the parsed rows: skip the first row when its
first cell is the case-insensitive header marker.  (On a nonempty row list
the `rows[0][0]` subscription is evaluated before this selection and can
raise; `get_latest_row` models that separately.) -/
def dataRowsOf (rows : List (List String)) : List (List String) :=
  match rows with
  | [] => []
  | first :: _ =>
    if rowIsHeaderB first then (if rows.length > 1 then rows.drop 1 else []) else rows

/-- The tail inspection of `get_latest_row` (src/main.py lines 45–53) as a
pure function of the selected data rows: `None` when there is no data row,
the last row is shorter than four fields, or one of its fields 2–4 fails
`int()` (those `ValueError`/`IndexError`s are caught). -/
def latestOf (dataRows : List (List String)) : Option (Int × Int × Int) :=
  match dataRows.getLast? with
  | none => none
  | some last =>
    if last.length < 4 then none
    else
      match pyInt? (last.getD 1 ""), pyInt? (last.getD 2 ""), pyInt? (last.getD 3 "") with
      | some a, some b, some t => some (a, b, t)
      | _, _, _ => none

/-- `get_latest_row` (src/main.py lines 34–53).  `FileNotFoundError` is
caught (absent file → `none`); the uncaught `rows[0][0]` subscription on a
nonempty row list whose first row is empty raises `IndexError`; past that
point the function is the pure selection/inspection above. -/
def get_latest_row (file : Option String) : Except PyErr (Option (Int × Int × Int)) :=
  match file with
  | none => .ok none
  | some content =>
    let rows := csvRecords content
    match rows with
    | [] => .ok none
    | first :: _ =>
      match first.head? with
      | none => .error .indexError
      | some _ => .ok (latestOf (dataRowsOf rows))

/-- `append_to_csv` (src/main.py lines 56–73).  Reads the first record to
decide whether a header is already present (`IndexError` if that record is
empty, `has_header = False` if the file is absent or empty), then appends —
at the end of the existing content — the header row when `has_header` is
false, followed by the data row.  Returns the new file content. -/
def append_to_csv (com net total : JVal) (today : String) (file : Option String) :
    Except PyErr String :=
  let row := serializeRow [today, pyStr com, pyStr net, pyStr total]
  let hasHeaderE : Except PyErr Bool :=
    match file with
    | none => .ok false
    | some content =>
      match (csvRecords content).head? with
      | none => .ok false
      | some first =>
        match first.head? with
        | none => .error .indexError
        | some c0 => .ok (pyLower c0 = "date")
  match hasHeaderE with
  | .error e => .error e
  | .ok hasHeader =>
    .ok ((match file with | none => "" | some c => c) ++
         (if hasHeader then "" else headerLine) ++ row)

/-- The two terminal outcomes of one invocation. -/
inductive Decision where
  | skipped
  | appended
  deriving DecidableEq, Repr

/-- Python `latest == (com, net, total)` where `latest` is the int triple
from the log and the right-hand side holds the freshly parsed values. -/
def pyTupleEq (latest : Int × Int × Int) (com net total : JVal) : Bool :=
  jvalEqInt com latest.1 && jvalEqInt net latest.2.1 && jvalEqInt total latest.2.2

/-- `main` (src/main.py lines 76–84): fetch, parse, read the latest row,
skip when the triples match exactly, otherwise append.  Returns the
decision together with the resulting file state.  (Named `main_run`
because `main` is reserved in Lean.) -/
def main_run (body : Option JVal) (today : String) (file : Option String) :
    Except PyErr (Decision × Option String) :=
  match fetch_zone_data body with
  | .error e => .error e
  | .ok data =>
    match parse_counts data with
    | .error e => .error e
    | .ok (com, net, total) =>
      match get_latest_row file with
      | .error e => .error e
      | .ok latest =>
        match latest with
        | some t =>
          if pyTupleEq t com net total then .ok (.skipped, file)
          else
            match append_to_csv com net total today file with
            | .error e => .error e
            | .ok c => .ok (.appended, some c)
        | none =>
          match append_to_csv com net total today file with
          | .error e => .error e
          | .ok c => .ok (.appended, some c)

/-- A JSON payload carrying integer counts for the two zones, i.e. the
shape the endpoint normally returns. -/
def intPayload (a b : Int) : JVal :=
  .jobj [("comDomainNameBase", .jobj [("domainNameCounts", .jint a)]),
         ("netDomainNameBase", .jobj [("domainNameCounts", .jint b)])]

theorem pyStr_jint (n : Int) : pyStr (.jint n) = Int.repr n := rfl

/-! ## Structural lemmas about the CSV machinery -/

theorem splitNL_cons (c : Char) (cs : List Char) :
    splitNL (c :: cs) =
      if c = '\n' then [] :: splitNL cs
      else
        match splitNL cs with
        | l :: ls => (c :: l) :: ls
        | [] => [[c]] := rfl

theorem splitNL_ne_nil (cs : List Char) : splitNL cs ≠ [] := by
  induction cs with
  | nil => simp [splitNL]
  | cons c cs ih =>
    rw [splitNL_cons]
    by_cases h : c = '\n'
    · simp [h]
    · rw [if_neg h]
      cases hs : splitNL cs with
      | nil => simp
      | cons l ls => simp

theorem splitNL_append_nl (xs ys : List Char) :
    splitNL (xs ++ '\n' :: ys) = splitNL xs ++ splitNL ys := by
  induction xs with
  | nil => simp [splitNL]
  | cons c cs ih =>
    rw [List.cons_append, splitNL_cons, splitNL_cons]
    by_cases h : c = '\n'
    · rw [if_pos h, if_pos h, ih]; rfl
    · rw [if_neg h, if_neg h, ih]
      cases hs : splitNL cs with
      | nil => exact absurd hs (splitNL_ne_nil cs)
      | cons l ls => simp [hs]

theorem splitNL_eq_single (xs : List Char) (h : '\n' ∉ xs) : splitNL xs = [xs] := by
  induction xs with
  | nil => rfl
  | cons c cs ih =>
    have hc : c ≠ '\n' := fun he => h (he ▸ List.mem_cons_self c cs)
    have hcs : '\n' ∉ cs := fun hm => h (List.mem_cons_of_mem c hm)
    rw [splitNL_cons, if_neg hc, ih hcs]

theorem splitComma_cons (c : Char) (cs : List Char) :
    splitComma (c :: cs) =
      if c = ',' then [] :: splitComma cs
      else
        match splitComma cs with
        | l :: ls => (c :: l) :: ls
        | [] => [[c]] := rfl

theorem splitComma_ne_nil (cs : List Char) : splitComma cs ≠ [] := by
  induction cs with
  | nil => simp [splitComma]
  | cons c cs ih =>
    rw [splitComma_cons]
    by_cases h : c = ','
    · simp [h]
    · rw [if_neg h]
      cases hs : splitComma cs with
      | nil => simp
      | cons l ls => simp

theorem splitComma_append_comma (xs ys : List Char) :
    splitComma (xs ++ ',' :: ys) = splitComma xs ++ splitComma ys := by
  induction xs with
  | nil => simp [splitComma]
  | cons c cs ih =>
    rw [List.cons_append, splitComma_cons, splitComma_cons]
    by_cases h : c = ','
    · rw [if_pos h, if_pos h, ih]; rfl
    · rw [if_neg h, if_neg h, ih]
      cases hs : splitComma cs with
      | nil => exact absurd hs (splitComma_ne_nil cs)
      | cons l ls => simp [hs]

theorem splitComma_eq_single (xs : List Char) (h : ',' ∉ xs) : splitComma xs = [xs] := by
  induction xs with
  | nil => rfl
  | cons c cs ih =>
    have hc : c ≠ ',' := fun he => h (he ▸ List.mem_cons_self c cs)
    have hcs : ',' ∉ cs := fun hm => h (List.mem_cons_of_mem c hm)
    rw [splitComma_cons, if_neg hc, ih hcs]

theorem stripCR_concat (l : List Char) : stripCR (l ++ ['\r']) = l := by
  unfold stripCR
  rw [List.getLast?_concat]
  simp

theorem dropTrailingBlank_concat_nil (ws : List (List Char)) :
    dropTrailingBlank (ws ++ [[]]) = ws := by
  unfold dropTrailingBlank
  rw [List.getLast?_concat]
  simp

theorem eq_concat_of_getLast? {α : Type _} {l : List α} {a : α}
    (h : l.getLast? = some a) : ∃ zs, l = zs ++ [a] := by
  have hne : l ≠ [] := by intro he; subst he; simp at h
  refine ⟨l.dropLast, ?_⟩
  have h2 := List.getLast?_eq_getLast l hne
  rw [h2] at h
  injection h with h3
  conv_lhs => rw [← List.dropLast_concat_getLast hne]
  rw [h3]

/-- Appending one `"\r\n"`-terminated line to a file that is empty or ends
in a newline adds exactly one record. -/
theorem csvRecords_append_line (c line : String)
    (hc : c = "" ∨ c.data.getLast? = some '\n')
    (hl : '\n' ∉ line.data) :
    csvRecords (c ++ (line ++ "\r\n")) = csvRecords c ++ [parseRecord line.data] := by
  have hdata : (c ++ (line ++ "\r\n")).data
      = (c.data ++ (line.data ++ ['\r'])) ++ '\n' :: [] := by
    simp [String.data_append]
  have hl' : '\n' ∉ line.data ++ ['\r'] := by
    intro hmem
    rcases List.mem_append.mp hmem with h1 | h1
    · exact hl h1
    · simp at h1
  rcases hc with hc | hc
  · subst hc
    unfold csvRecords
    rw [hdata]
    simp only [String.data]
    rw [List.nil_append, splitNL_append_nl, splitNL_eq_single _ hl']
    show (dropTrailingBlank ([line.data ++ ['\r']] ++ [[]])).map _ = _
    rw [dropTrailingBlank_concat_nil]
    simp [stripCR_concat, dropTrailingBlank, splitNL]
  · rcases eq_concat_of_getLast? hc with ⟨zs, hzs⟩
    unfold csvRecords
    rw [hdata, hzs]
    rw [List.append_assoc zs ['\n'] (line.data ++ ['\r'])]
    show (dropTrailingBlank (splitNL ((zs ++ '\n' :: (line.data ++ ['\r'])) ++ '\n' :: []))).map _
        = _
    rw [splitNL_append_nl, splitNL_append_nl, splitNL_eq_single _ hl']
    show (dropTrailingBlank ((splitNL zs ++ [line.data ++ ['\r']]) ++ [[]])).map _ = _
    rw [dropTrailingBlank_concat_nil]
    have h2 : splitNL (zs ++ ['\n']) = splitNL zs ++ [[]] := by
      have := splitNL_append_nl zs []
      simpa [splitNL] using this
    rw [h2, dropTrailingBlank_concat_nil]
    simp [stripCR_concat]

/-- A character that may sit inside an unquoted CSV field. -/
def cleanChar (ch : Char) : Bool :=
  !(ch = ',' || ch = '\n' || ch = '\r')

/-- A string usable verbatim as an unquoted CSV field. -/
def cleanField (s : String) : Bool :=
  s.data.all cleanChar

theorem not_mem_of_cleanField {s : String} (h : cleanField s = true) :
    ',' ∉ s.data ∧ '\n' ∉ s.data ∧ '\r' ∉ s.data := by
  unfold cleanField at h
  rw [List.all_eq_true] at h
  refine ⟨fun hm => ?_, fun hm => ?_, fun hm => ?_⟩ <;>
    · have := h _ hm
      simp [cleanChar] at this

theorem joinFields_data_cons (f g : String) (fs : List String) :
    (joinFields (f :: g :: fs)).data = f.data ++ ',' :: (joinFields (g :: fs)).data := by
  show (f ++ "," ++ joinFields (g :: fs)).data = _
  simp [String.data_append]

theorem splitComma_joinFields (fields : List String) (h : fields ≠ [])
    (hc : ∀ f ∈ fields, cleanField f = true) :
    splitComma (joinFields fields).data = fields.map String.data := by
  induction fields with
  | nil => exact absurd rfl h
  | cons f fs ih =>
    cases fs with
    | nil =>
      show splitComma f.data = [f.data]
      exact splitComma_eq_single _ (not_mem_of_cleanField (hc f (by simp))).1
    | cons g gs =>
      rw [joinFields_data_cons, splitComma_append_comma,
        splitComma_eq_single _ (not_mem_of_cleanField (hc f (by simp))).1,
        ih (by simp) (fun x hx => hc x (List.mem_cons_of_mem f hx))]
      rfl

theorem string_mk_data (s : String) : String.mk s.data = s := rfl

theorem parseRecord_joinFields (fields : List String) (h : (joinFields fields).data ≠ [])
    (hc : ∀ f ∈ fields, cleanField f = true) :
    parseRecord (joinFields fields).data = fields := by
  have hne : fields ≠ [] := by
    intro he; subst he; exact h rfl
  unfold parseRecord
  rw [if_neg h, splitComma_joinFields fields hne hc, List.map_map]
  have : (fun f => String.mk f) ∘ String.data = id := by
    funext s; exact string_mk_data s
  rw [this, List.map_id]

theorem joinFields_nl_free (fields : List String)
    (hc : ∀ f ∈ fields, cleanField f = true) :
    '\n' ∉ (joinFields fields).data := by
  induction fields with
  | nil => simp [joinFields]
  | cons f fs ih =>
    cases fs with
    | nil => exact (not_mem_of_cleanField (hc f (by simp))).2.1
    | cons g gs =>
      rw [joinFields_data_cons]
      intro hmem
      rcases List.mem_append.mp hmem with h1 | h1
      · exact (not_mem_of_cleanField (hc f (by simp))).2.1 h1
      · rcases List.mem_cons.mp h1 with h2 | h2
        · exact absurd h2 (by decide)
        · exact ih (fun x hx => hc x (List.mem_cons_of_mem f hx)) h2

/-- The serialized-row form of the append lemma: appending one clean row to
an empty file or one ending in a newline adds exactly that record. -/
theorem csvRecords_append_row (c : String) (fields : List String)
    (hc : c = "" ∨ c.data.getLast? = some '\n')
    (hne : (joinFields fields).data ≠ [])
    (hf : ∀ f ∈ fields, cleanField f = true) :
    csvRecords (c ++ serializeRow fields) = csvRecords c ++ [fields] := by
  show csvRecords (c ++ (joinFields fields ++ "\r\n")) = _
  rw [csvRecords_append_line c (joinFields fields) hc (joinFields_nl_free fields hf),
    parseRecord_joinFields fields hne hf]

/-! ### Decimal digit strings are clean fields -/

theorem cleanChar_digitChar (m : Nat) : cleanChar (Nat.digitChar m) = true := by
  by_cases h : m < 16
  · interval_cases m <;> rfl
  · have hstar : Nat.digitChar m = '*' := by
      unfold Nat.digitChar
      repeat rw [if_neg (by omega)]
    rw [hstar]
    rfl

theorem toDigitsCore_clean (fuel n : Nat) (ds : List Char) (h : ds.all cleanChar = true) :
    (Nat.toDigitsCore 10 fuel n ds).all cleanChar = true := by
  induction fuel generalizing n ds with
  | zero => exact h
  | succ fuel ih =>
    unfold Nat.toDigitsCore
    simp only []
    split
    · rw [List.all_cons, cleanChar_digitChar, h]; rfl
    · exact ih _ _ (by rw [List.all_cons, cleanChar_digitChar, h]; rfl)

theorem cleanField_natRepr (n : Nat) : cleanField (Nat.repr n) = true := by
  show (Nat.toDigits 10 n).asString.data.all cleanChar = true
  have : (Nat.toDigits 10 n).asString.data = Nat.toDigits 10 n := rfl
  rw [this]
  exact toDigitsCore_clean _ _ _ rfl

theorem cleanField_intRepr (i : Int) : cleanField (Int.repr i) = true := by
  cases i with
  | ofNat m => exact cleanField_natRepr m
  | negSucc m =>
    show ("-" ++ Nat.repr (m + 1)).data.all cleanChar = true
    rw [String.data_append, List.all_append]
    have h1 : ("-" : String).data.all cleanChar = true := rfl
    have h2 := cleanField_natRepr (m + 1)
    unfold cleanField at h2
    rw [h1, h2]
    rfl

/-! ## Helper lemmas about the embedded program -/

theorem str_append_assoc (a b c : String) : a ++ b ++ c = a ++ (b ++ c) := by
  cases a with | mk xs => cases b with | mk ys => cases c with | mk zs =>
  show String.mk ((xs ++ ys) ++ zs) = String.mk (xs ++ (ys ++ zs))
  rw [List.append_assoc]

theorem str_append_empty (s : String) : s ++ "" = s := by
  cases s with | mk xs =>
  show String.mk (xs ++ []) = String.mk xs
  rw [List.append_nil]

theorem str_empty_append (s : String) : "" ++ s = s := rfl

theorem get_latest_row_eq (content : String) (first : List String)
    (rest : List (List String)) (c0 : String)
    (hrows : csvRecords content = first :: rest) (hh : first.head? = some c0) :
    get_latest_row (some content) = .ok (latestOf (dataRowsOf (first :: rest))) := by
  simp [get_latest_row, hrows, hh]

theorem append_fresh (com net total : JVal) (today : String) (file : Option String)
    (hfile : file = none ∨ file = some "") :
    append_to_csv com net total today file =
      .ok (headerLine ++ serializeRow [today, pyStr com, pyStr net, pyStr total]) := by
  rcases hfile with h | h <;> subst h <;> rfl

theorem append_with_header (com net total : JVal) (today content : String)
    (first : List String) (c0 : String)
    (h1 : (csvRecords content).head? = some first)
    (h2 : first.head? = some c0) (h3 : pyLower c0 = "date") :
    append_to_csv com net total today (some content) =
      .ok (content ++ serializeRow [today, pyStr com, pyStr net, pyStr total]) := by
  have : content ++ "" ++ serializeRow [today, pyStr com, pyStr net, pyStr total]
      = content ++ serializeRow [today, pyStr com, pyStr net, pyStr total] := by
    rw [str_append_empty]
  simp [append_to_csv, h1, h2, h3, this]

theorem append_without_header (com net total : JVal) (today content : String)
    (first : List String) (c0 : String)
    (h1 : (csvRecords content).head? = some first)
    (h2 : first.head? = some c0) (h3 : pyLower c0 ≠ "date") :
    append_to_csv com net total today (some content) =
      .ok (content ++ headerLine ++ serializeRow [today, pyStr com, pyStr net, pyStr total]) := by
  simp [append_to_csv, h1, h2, h3]

theorem append_blank_first_row (com net total : JVal) (today content : String)
    (h1 : (csvRecords content).head? = some []) :
    append_to_csv com net total today (some content) = .error .indexError := by
  simp [append_to_csv, h1]

/-- The four fields of one appended data row are clean CSV fields whenever
the date string is. -/
theorem dataRow_fields_clean (today : String) (a b t : Int)
    (htoday : cleanField today = true) :
    ∀ f ∈ [today, Int.repr a, Int.repr b, Int.repr t], cleanField f = true := by
  intro f hf
  simp only [List.mem_cons, List.not_mem_nil, or_false] at hf
  rcases hf with rfl | rfl | rfl | rfl
  · exact htoday
  · exact cleanField_intRepr a
  · exact cleanField_intRepr b
  · exact cleanField_intRepr t

theorem dataRow_join_ne_nil (today : String) (a b t : Int) :
    (joinFields [today, Int.repr a, Int.repr b, Int.repr t]).data ≠ [] := by
  rw [joinFields_data_cons]
  intro h
  have := congrArg List.length h
  simp at this

/-- Records of a freshly created log: the header row, then the one data
row. -/
theorem csvRecords_fresh_log (today : String) (a b t : Int)
    (htoday : cleanField today = true) :
    csvRecords (headerLine ++ serializeRow [today, Int.repr a, Int.repr b, Int.repr t]) =
      [["date", "com", "net", "total"], [today, Int.repr a, Int.repr b, Int.repr t]] := by
  have h1 : csvRecords (headerLine ++ serializeRow [today, Int.repr a, Int.repr b, Int.repr t]) =
      csvRecords headerLine ++ [[today, Int.repr a, Int.repr b, Int.repr t]] :=
    csvRecords_append_row headerLine _ (Or.inr (by decide))
      (dataRow_join_ne_nil today a b t) (dataRow_fields_clean today a b t htoday)
  rw [h1]
  rfl

/-! ## C1: unchanged counts are skipped and the log is untouched -/

/-- C1. If the last data row of the log parses to the triple `(A, B, T)`
and the fetched counts produce exactly that triple (`countA = A`,
`countB = B`, `total = T = A + B`), the run reports `Skipped` and performs
no write: the resulting file state is the input file state, byte for
byte. -/
theorem main_skips_when_counts_unchanged (A B T : Int) (today : String)
    (file : Option String)
    (hlatest : get_latest_row file = .ok (some (A, B, T)))
    (hsum : A + B = T) :
    main_run (some (intPayload A B)) today file = .ok (.skipped, file) := by
  have hparse : parse_counts (intPayload A B) = .ok (.jint A, .jint B, .jint (A + B)) := rfl
  have htup : pyTupleEq (A, B, T) (.jint A) (.jint B) (.jint (A + B)) = true := by
    simp [pyTupleEq, jvalEqInt, hsum]
  simp [main_run, fetch_zone_data, hparse, hlatest, htup]

/-- Witness for C1 at a concrete log and matching fetch. -/
theorem main_skips_when_counts_unchanged_witness :
    main_run (some (intPayload 1 2)) "2026-01-02"
        (some "date,com,net,total\r\n2026-01-01,1,2,3\r\n") =
      .ok (.skipped, some "date,com,net,total\r\n2026-01-01,1,2,3\r\n") :=
  main_skips_when_counts_unchanged 1 2 3 "2026-01-02"
    (some "date,com,net,total\r\n2026-01-01,1,2,3\r\n") (by decide) (by decide)

/-! ## C3: append on a fresh log -/

/-- C3. Against an absent or empty log, a run with fetched counts `(a, b)`
produces exactly the header row followed by the single data row
`today,a,b,a+b` (for `(100, 200)`: `today,100,200,300`). -/
theorem append_on_fresh_log (a b : Int) (today : String) (file : Option String)
    (hfile : file = none ∨ file = some "")
    (htoday : cleanField today = true) :
    main_run (some (intPayload a b)) today file =
      .ok (.appended, some (headerLine ++
        serializeRow [today, Int.repr a, Int.repr b, Int.repr (a + b)])) ∧
    csvRecords (headerLine ++ serializeRow [today, Int.repr a, Int.repr b, Int.repr (a + b)]) =
      [["date", "com", "net", "total"],
       [today, Int.repr a, Int.repr b, Int.repr (a + b)]] := by
  exact ⟨by rcases hfile with h | h <;> subst h <;> rfl,
    csvRecords_fresh_log today a b (a + b) htoday⟩

/-- Witness for C3 at the spec's concrete scenario (absent log, counts
`(100, 200)`). -/
theorem append_on_fresh_log_witness :
    main_run (some (intPayload 100 200)) "2026-10-12" none =
      .ok (.appended, some (headerLine ++
        serializeRow ["2026-10-12", Int.repr 100, Int.repr 200, Int.repr (100 + 200)])) ∧
    csvRecords (headerLine ++
        serializeRow ["2026-10-12", Int.repr 100, Int.repr 200, Int.repr (100 + 200)]) =
      [["date", "com", "net", "total"],
       ["2026-10-12", Int.repr 100, Int.repr 200, Int.repr (100 + 200)]] :=
  append_on_fresh_log 100 200 "2026-10-12" none (Or.inl rfl) (by decide)

/-! ## C8: case-insensitive header detection is idempotent -/

/-- C8. On a log that already begins with a header row — recognized by its
first cell equalling `"date"` case-insensitively — the append writes no
second header: the file grows by exactly the serialized data row, so its
record list gains exactly one row. -/
theorem header_detect_idempotent (com net total : Int) (today content : String)
    (first : List String) (c0 : String)
    (h1 : (csvRecords content).head? = some first)
    (h2 : first.head? = some c0)
    (h3 : pyLower c0 = "date")
    (hnl : content.data.getLast? = some '\n')
    (htoday : cleanField today = true) :
    append_to_csv (.jint com) (.jint net) (.jint total) today (some content) =
      .ok (content ++ serializeRow [today, Int.repr com, Int.repr net, Int.repr total]) ∧
    csvRecords (content ++ serializeRow [today, Int.repr com, Int.repr net, Int.repr total]) =
      csvRecords content ++ [[today, Int.repr com, Int.repr net, Int.repr total]] := by
  constructor
  · exact append_with_header (.jint com) (.jint net) (.jint total) today content first c0 h1 h2 h3
  · exact csvRecords_append_row content _ (Or.inr hnl)
      (dataRow_join_ne_nil today com net total)
      (dataRow_fields_clean today com net total htoday)

/-- Witness for C8: an upper-case `DATE` header is recognized and not
duplicated. -/
theorem header_detect_idempotent_witness :
    append_to_csv (.jint 7) (.jint 8) (.jint 15) "2026-10-12"
        (some "DATE,com,net,total\r\n") =
      .ok ("DATE,com,net,total\r\n" ++
        serializeRow ["2026-10-12", Int.repr 7, Int.repr 8, Int.repr 15]) ∧
    csvRecords ("DATE,com,net,total\r\n" ++
        serializeRow ["2026-10-12", Int.repr 7, Int.repr 8, Int.repr 15]) =
      csvRecords "DATE,com,net,total\r\n" ++
        [["2026-10-12", Int.repr 7, Int.repr 8, Int.repr 15]] :=
  header_detect_idempotent 7 8 15 "2026-10-12" "DATE,com,net,total\r\n"
    ["DATE", "com", "net", "total"] "DATE" (by decide) (by decide) (by decide)
    (by decide) (by decide)

/-! ## C4: where the header row ends up after an append -/

theorem rowIsHeaderB_true_iff (r : List String) :
    rowIsHeaderB r = true ↔ ∃ c0, r.head? = some c0 ∧ pyLower c0 = "date" := by
  unfold rowIsHeaderB
  cases r.head? with
  | none => simp
  | some c0 => simp

/-- C4 fails on the code: appending to a pre-existing log that does not
begin with a header row places the header row in the middle of the file
(second row here), not as the first row. -/
theorem header_not_first_counterexample :
    append_to_csv (.jint 1) (.jint 2) (.jint 3) "2026-10-12" (some "x,y\r\n") =
      .ok "x,y\r\ndate,com,net,total\r\n2026-10-12,1,2,3\r\n" ∧
    csvRecords "x,y\r\ndate,com,net,total\r\n2026-10-12,1,2,3\r\n" =
      [["x", "y"], ["date", "com", "net", "total"], ["2026-10-12", "1", "2", "3"]] ∧
    rowIsHeaderB ["x", "y"] = false ∧
    rowIsHeaderB ["date", "com", "net", "total"] = true := by
  refine ⟨?_, ?_, ?_, ?_⟩ <;> decide

/-- C4 amended.  For a log that is absent, empty, or begins with a header
row and contains no other header row (and ends in a newline), an append
keeps the header-only-as-first-row invariant; a pre-existing non-empty log
that does not begin with a header instead receives the header at its end,
immediately before the new data row (see the counterexample). -/
theorem header_only_first_row_amended (com net total : Int) (today : String)
    (file : Option String)
    (htoday : cleanField today = true)
    (hnotdate : pyLower today ≠ "date")
    (hfile : file = none ∨ file = some "" ∨
      ∃ c first rest, file = some c ∧ csvRecords c = first :: rest ∧
        rowIsHeaderB first = true ∧ (∀ r ∈ rest, rowIsHeaderB r = false) ∧
        c.data.getLast? = some '\n') :
    ∃ c' hd tl,
      append_to_csv (.jint com) (.jint net) (.jint total) today file = .ok c' ∧
      csvRecords c' = hd :: tl ∧
      rowIsHeaderB hd = true ∧
      ∀ r ∈ tl, rowIsHeaderB r = false := by
  have hdata : rowIsHeaderB [today, Int.repr com, Int.repr net, Int.repr total] = false := by
    simp [rowIsHeaderB, hnotdate]
  rcases hfile with h | h | ⟨c, first, rest, rfl, hrows, hfirst, hrest, hnl⟩
  · refine ⟨_, ["date", "com", "net", "total"],
      [[today, Int.repr com, Int.repr net, Int.repr total]],
      append_fresh _ _ _ today file (Or.inl h), ?_, by decide, ?_⟩
    · exact csvRecords_fresh_log today com net total htoday
    · intro r hr
      simp only [List.mem_singleton] at hr
      subst hr
      exact hdata
  · refine ⟨_, ["date", "com", "net", "total"],
      [[today, Int.repr com, Int.repr net, Int.repr total]],
      append_fresh _ _ _ today file (Or.inr h), ?_, by decide, ?_⟩
    · exact csvRecords_fresh_log today com net total htoday
    · intro r hr
      simp only [List.mem_singleton] at hr
      subst hr
      exact hdata
  · rcases (rowIsHeaderB_true_iff first).mp hfirst with ⟨c0, hc0, hc0d⟩
    have hhead : (csvRecords c).head? = some first := by rw [hrows]; rfl
    refine ⟨_, first, rest ++ [[today, Int.repr com, Int.repr net, Int.repr total]],
      append_with_header _ _ _ today c first c0 hhead hc0 hc0d, ?_, hfirst, ?_⟩
    · have h2 := csvRecords_append_row c [today, Int.repr com, Int.repr net, Int.repr total]
        (Or.inr hnl) (dataRow_join_ne_nil today com net total)
        (dataRow_fields_clean today com net total htoday)
      rw [hrows] at h2
      exact h2
    · intro r hr
      rcases List.mem_append.mp hr with h1 | h1
      · exact hrest r h1
      · simp only [List.mem_singleton] at h1
        subst h1
        exact hdata

/-- Witness for the amended C4 at a concrete header-led log. -/
theorem header_only_first_row_amended_witness :
    ∃ c' hd tl,
      append_to_csv (.jint 4) (.jint 5) (.jint 9) "2026-10-12"
          (some "date,com,net,total\r\n2026-01-01,1,2,3\r\n") = .ok c' ∧
      csvRecords c' = hd :: tl ∧
      rowIsHeaderB hd = true ∧
      ∀ r ∈ tl, rowIsHeaderB r = false :=
  header_only_first_row_amended 4 5 9 "2026-10-12"
    (some "date,com,net,total\r\n2026-01-01,1,2,3\r\n") (by decide) (by decide)
    (Or.inr (Or.inr ⟨"date,com,net,total\r\n2026-01-01,1,2,3\r\n",
      ["date", "com", "net", "total"], [["2026-01-01", "1", "2", "3"]], rfl,
      by decide, by decide, by
        intro r hr
        simp only [List.mem_singleton] at hr
        subst hr
        decide, by decide⟩))

/-! ## Tracing a run that appends -/

theorem main_run_appended_trace (body : Option JVal) (today : String)
    (file : Option String) (c' : String)
    (h : main_run body today file = .ok (.appended, some c')) :
    ∃ data com net total, fetch_zone_data body = .ok data ∧
      parse_counts data = .ok (com, net, total) ∧
      append_to_csv com net total today file = .ok c' := by
  cases hf : fetch_zone_data body with
  | error e =>
    simp only [main_run, hf] at h
    exact Except.noConfusion h
  | ok data =>
    cases hp : parse_counts data with
    | error e =>
      simp only [main_run, hf, hp] at h
      exact Except.noConfusion h
    | ok trip =>
      obtain ⟨com, net, total⟩ := trip
      cases hg : get_latest_row file with
      | error e =>
        simp only [main_run, hf, hp, hg] at h
        exact Except.noConfusion h
      | ok latest =>
        cases latest with
        | none =>
          cases ha : append_to_csv com net total today file with
          | error e =>
            simp only [main_run, hf, hp, hg, ha] at h
            exact Except.noConfusion h
          | ok c =>
            simp only [main_run, hf, hp, hg, ha] at h
            simp at h
            subst h
            exact ⟨data, com, net, total, rfl, hp, ha⟩
        | some t =>
          by_cases ht : pyTupleEq t com net total = true
          · simp only [main_run, hf, hp, hg, ht, if_true] at h
            simp at h
          · have ht' : pyTupleEq t com net total = false := by
              simpa using ht
            cases ha : append_to_csv com net total today file with
            | error e =>
              simp only [main_run, hf, hp, hg, ht', ha] at h
              simp at h
            | ok c =>
              simp only [main_run, hf, hp, hg, ht', ha] at h
              simp at h
              subst h
              exact ⟨data, com, net, total, rfl, hp, ha⟩

theorem append_no_records (com net total : JVal) (today content : String)
    (hh : (csvRecords content).head? = none) :
    append_to_csv com net total today (some content) =
      .ok (content ++ headerLine ++ serializeRow [today, pyStr com, pyStr net, pyStr total]) := by
  simp [append_to_csv, hh]

/-- Every successful append writes the old content (or nothing, for a
fresh file), then possibly the header row, then the data row. -/
theorem append_ok_decompose (com net total : JVal) (today : String)
    (file : Option String) (c : String)
    (h : append_to_csv com net total today file = .ok c) :
    ∃ hdr, (hdr = "" ∨ hdr = headerLine) ∧
      c = (file.getD "") ++ hdr ++
        serializeRow [today, pyStr com, pyStr net, pyStr total] := by
  cases file with
  | none =>
    rw [append_fresh com net total today none (Or.inl rfl)] at h
    injection h with h1
    exact ⟨headerLine, Or.inr rfl, by rw [← h1]; rfl⟩
  | some content =>
    cases hh : (csvRecords content).head? with
    | none =>
      rw [append_no_records com net total today content hh] at h
      injection h with h1
      exact ⟨headerLine, Or.inr rfl, h1.symm⟩
    | some first =>
      cases hfh : first.head? with
      | none =>
        have hfirst : first = [] := List.head?_eq_none_iff.mp hfh
        subst hfirst
        rw [append_blank_first_row com net total today content hh] at h
        cases h
      | some c0 =>
        by_cases hd : pyLower c0 = "date"
        · rw [append_with_header com net total today content first c0 hh hfh hd] at h
          injection h with h1
          refine ⟨"", Or.inl rfl, ?_⟩
          rw [← h1, str_append_empty]
          rfl
        · rw [append_without_header com net total today content first c0 hh hfh hd] at h
          injection h with h1
          exact ⟨headerLine, Or.inr rfl, h1.symm⟩

/-! ## C9: the append only extends the file -/

/-- C9. Whenever a run appends, the pre-existing log content is an
unchanged prefix of the new content: everything written is a suffix, no
existing byte is altered and the file is never truncated. -/
theorem append_only_extends (body : Option JVal) (today content : String) (c' : String)
    (h : main_run body today (some content) = .ok (.appended, some c')) :
    ∃ tail, c' = content ++ tail := by
  obtain ⟨data, com, net, total, _, _, ha⟩ := main_run_appended_trace body today (some content) c' h
  obtain ⟨hdr, _, hc⟩ := append_ok_decompose com net total today (some content) c' ha
  exact ⟨hdr ++ serializeRow [today, pyStr com, pyStr net, pyStr total], by
    rw [hc]
    exact str_append_assoc content hdr _⟩

/-- Witness for C9 at a concrete run over a header-only log. -/
theorem append_only_extends_witness :
    ∃ tail, "date,com,net,total\r\n2026-10-12,1,2,3\r\n" = "date,com,net,total\r\n" ++ tail :=
  append_only_extends (some (intPayload 1 2)) "2026-10-12" "date,com,net,total\r\n"
    "date,com,net,total\r\n2026-10-12,1,2,3\r\n" (by decide)

/-! ## C2: the written total versus the sum of the counts -/

/-- A payload whose two count fields are JSON strings, not numbers. -/
def strPayload : JVal :=
  .jobj [("comDomainNameBase", .jobj [("domainNameCounts", .jstr "5")]),
         ("netDomainNameBase", .jobj [("domainNameCounts", .jstr "6")])]

/-- C2 fails on the code as universally stated: a payload carrying the
counts as strings flows through the write path unchecked — Python `+`
concatenates `"5"` and `"6"` to `"56"` — and the appended row
`2026-10-12,5,6,56` has its third numeric field equal to 56 ≠ 5 + 6. -/
theorem append_row_sum_counterexample :
    main_run (some strPayload) "2026-10-12" none =
      .ok (.appended, some "date,com,net,total\r\n2026-10-12,5,6,56\r\n") ∧
    (csvRecords "date,com,net,total\r\n2026-10-12,5,6,56\r\n").getD 1 [] =
      ["2026-10-12", "5", "6", "56"] ∧
    pyInt? "5" = some 5 ∧ pyInt? "6" = some 6 ∧ pyInt? "56" = some 56 ∧
    (56 : Int) ≠ 5 + 6 := by
  refine ⟨?_, ?_, ?_, ?_, ?_, ?_⟩ <;> decide

/-- C2 amended.  For every payload whose two count fields are integers —
the shape the endpoint contractually returns — every row the write path
appends carries, as its third numeric field, exactly the sum of the first
two. -/
theorem appended_row_total_eq_sum (a b : Int) (today : String)
    (file : Option String) (c' : String)
    (h : main_run (some (intPayload a b)) today file = .ok (.appended, some c')) :
    ∃ pre x y z,
      c' = pre ++ serializeRow [today, Int.repr x, Int.repr y, Int.repr z] ∧
      z = x + y := by
  obtain ⟨data, com, net, total, hf, hp, ha⟩ :=
    main_run_appended_trace (some (intPayload a b)) today file c' h
  have hdata : data = intPayload a b := by
    have h5 : (Except.ok (intPayload a b) : Except PyErr JVal) = .ok data := hf
    injection h5 with h1
    exact h1.symm
  subst hdata
  have h0 : parse_counts (intPayload a b) = .ok (.jint a, .jint b, .jint (a + b)) := rfl
  rw [hp] at h0
  injection h0.symm with h1
  injection h1 with hcom hrest
  injection hrest with hnet htot
  subst hcom
  subst hnet
  subst htot
  obtain ⟨hdr, _, hc⟩ := append_ok_decompose _ _ _ today file c' ha
  exact ⟨(file.getD "") ++ hdr, a, b, a + b, hc, rfl⟩

/-- Witness for the amended C2 at a concrete appending run. -/
theorem appended_row_total_eq_sum_witness :
    ∃ pre x y z,
      "date,com,net,total\r\n2026-10-12,100,200,300\r\n" =
        pre ++ serializeRow ["2026-10-12", Int.repr x, Int.repr y, Int.repr z] ∧
      z = x + y :=
  appended_row_total_eq_sum 100 200 "2026-10-12" none
    "date,com,net,total\r\n2026-10-12,100,200,300\r\n" (by decide)

/-! ## C5: does `get_latest_row` ever raise? -/

/-- C5 fails as universally stated: on a file whose first line is blank
the uncaught `rows[0][0]` subscription raises `IndexError` instead of
returning `None`, and the run aborts before the append decision. -/
theorem get_latest_row_raises_counterexample :
    get_latest_row (some "\n") = .error .indexError ∧
    main_run (some (intPayload 1 2)) "2026-10-12" (some "\n") = .error .indexError := by
  constructor <;> decide

/-- C5 amended.  `get_latest_row` never raises — absent file, empty file,
short row, non-numeric field all yield `None` — except when the file is
non-empty and its first line is blank (first record empty), where
`rows[0][0]` raises `IndexError`. -/
theorem get_latest_row_no_raise (file : Option String)
    (h : ∀ c, file = some c → (csvRecords c).head? ≠ some []) :
    ∃ v, get_latest_row file = .ok v := by
  cases file with
  | none => exact ⟨none, rfl⟩
  | some c =>
    cases hrows : csvRecords c with
    | nil => exact ⟨none, by simp [get_latest_row, hrows]⟩
    | cons first rest =>
      cases hfh : first.head? with
      | none =>
        have hfe : first = [] := List.head?_eq_none_iff.mp hfh
        subst hfe
        exact absurd (by rw [hrows]; rfl) (h c rfl)
      | some c0 =>
        exact ⟨latestOf (dataRowsOf (first :: rest)),
          get_latest_row_eq c first rest c0 hrows hfh⟩

/-- Witness for the amended C5: a malformed (short) last row is absorbed
without raising. -/
theorem get_latest_row_no_raise_witness :
    ∃ v, get_latest_row (some "x\r\n") = .ok v :=
  get_latest_row_no_raise (some "x\r\n") (by
    intro c hc
    injection hc with hc1
    subst hc1
    decide)

/-! ## C7: malformed tail rows -/

/-- C7 fails as universally stated: the file `"\n\n"` has an (empty) last
data row with fewer than four fields, yet `get_latest_row` raises
`IndexError` — because the first row is also blank — rather than returning
`None`, and the next run aborts instead of appending. -/
theorem malformed_tail_counterexample :
    (dataRowsOf (csvRecords "\n\n")).getLast? = some [] ∧
    ([] : List String).length < 4 ∧
    get_latest_row (some "\n\n") = .error .indexError ∧
    main_run (some (intPayload 1 2)) "2026-10-12" (some "\n\n") = .error .indexError := by
  refine ⟨?_, ?_, ?_, ?_⟩ <;> decide

/-- C7 amended.  Provided the first row of the log is not blank, a last
data row with fewer than four fields, or whose fields 2–4 do not all parse
as integers, makes `get_latest_row` return `None`, and the next run with
integer counts appends regardless of their values. -/
theorem malformed_tail_appends (content today : String) (a b : Int)
    (first : List String) (rest : List (List String)) (c0 : String) (last : List String)
    (hrows : csvRecords content = first :: rest)
    (hc0 : first.head? = some c0)
    (hlast : (dataRowsOf (first :: rest)).getLast? = some last)
    (hbad : last.length < 4 ∨ pyInt? (last.getD 1 "") = none ∨
      pyInt? (last.getD 2 "") = none ∨ pyInt? (last.getD 3 "") = none) :
    get_latest_row (some content) = .ok none ∧
    ∃ c', main_run (some (intPayload a b)) today (some content) =
      .ok (.appended, some c') := by
  have hnone : latestOf (dataRowsOf (first :: rest)) = none := by
    by_cases hlen : last.length < 4
    · simp [latestOf, hlast, hlen]
    · rcases hbad with h1 | h1 | h1 | h1
      · exact absurd h1 hlen
      all_goals
        cases hx : pyInt? (last.getD 1 "") <;>
          cases hy : pyInt? (last.getD 2 "") <;>
            cases hz : pyInt? (last.getD 3 "") <;>
              simp_all [latestOf]
  have hg : get_latest_row (some content) = .ok none := by
    rw [get_latest_row_eq content first rest c0 hrows hc0, hnone]
  refine ⟨hg, ?_⟩
  have hhead : (csvRecords content).head? = some first := by rw [hrows]; rfl
  have hparse : parse_counts (intPayload a b) = .ok (.jint a, .jint b, .jint (a + b)) := rfl
  by_cases hd : pyLower c0 = "date"
  · refine ⟨content ++ serializeRow [today, Int.repr a, Int.repr b, Int.repr (a + b)], ?_⟩
    simp [main_run, fetch_zone_data, hparse, hg, pyStr_jint,
      append_with_header (.jint a) (.jint b) (.jint (a + b)) today content first c0 hhead hc0 hd]
  · refine ⟨content ++ headerLine ++
      serializeRow [today, Int.repr a, Int.repr b, Int.repr (a + b)], ?_⟩
    simp [main_run, fetch_zone_data, hparse, hg, pyStr_jint,
      append_without_header (.jint a) (.jint b) (.jint (a + b)) today content first c0 hhead hc0 hd]

/-- Witness for the amended C7: a two-field last row under a proper header
is treated as no prior entry and the run appends. -/
theorem malformed_tail_appends_witness :
    get_latest_row (some "date,com,net,total\r\nx,y\r\n") = .ok none ∧
    ∃ c', main_run (some (intPayload 9 9)) "2026-10-12"
        (some "date,com,net,total\r\nx,y\r\n") = .ok (.appended, some c') :=
  malformed_tail_appends "date,com,net,total\r\nx,y\r\n" "2026-10-12" 9 9
    ["date", "com", "net", "total"] [["x", "y"]] "date" ["x", "y"]
    (by decide) (by decide) (by decide) (Or.inl (by decide))

/-! ## C6: what the fetch/parse stage accepts and rejects -/

/-- The spec's view of "the two expected fields": the value sitting at
`data[k1][k2]` when `data[k1]` is an object carrying `k2`, and nothing
otherwise. -/
def specField (data : JVal) (k1 k2 : String) : Option JVal :=
  match data with
  | .jobj fields =>
    match fields.find? (fun p => p.1 = k1) with
    | some p =>
      match p.2 with
      | .jobj gs =>
        match gs.find? (fun q => q.1 = k2) with
        | some q => some q.2
        | none => none
      | _ => none
    | none => none
  | _ => none

theorem pySubscript2_spec (data : JVal) (k1 k2 : String) (v : JVal) :
    (∃ b, pySubscript data k1 = .ok b ∧ pySubscript b k2 = .ok v) ↔
      specField data k1 k2 = some v := by
  constructor
  · rintro ⟨b, hb, hv⟩
    cases data with
    | jobj fs =>
      cases hfind : fs.find? (fun p => p.1 = k1) with
      | none =>
        simp only [pySubscript, hfind] at hb
        exact Except.noConfusion hb
      | some p =>
        simp only [pySubscript, hfind] at hb
        injection hb with hb1
        subst hb1
        cases hp2 : p.2 with
        | jobj gs =>
          rw [hp2] at hv
          cases hfind2 : gs.find? (fun q => q.1 = k2) with
          | none =>
            simp only [pySubscript, hfind2] at hv
            exact Except.noConfusion hv
          | some q =>
            simp only [pySubscript, hfind2] at hv
            injection hv with hv1
            subst hv1
            simp [specField, hfind, hp2, hfind2]
        | jnull => rw [hp2] at hv; cases hv
        | jint n => rw [hp2] at hv; cases hv
        | jstr s => rw [hp2] at hv; cases hv
        | jarr xs => rw [hp2] at hv; cases hv
    | jnull => cases hb
    | jint n => cases hb
    | jstr s => cases hb
    | jarr xs => cases hb
  · intro h
    cases data with
    | jobj fs =>
      cases hfind : fs.find? (fun p => p.1 = k1) with
      | none =>
        simp only [specField, hfind] at h
        exact Option.noConfusion h
      | some p =>
        cases hp2 : p.2 with
        | jobj gs =>
          cases hfind2 : gs.find? (fun q => q.1 = k2) with
          | none =>
            simp only [specField, hfind, hp2, hfind2] at h
            exact Option.noConfusion h
          | some q =>
            simp only [specField, hfind, hp2, hfind2, Option.some.injEq] at h
            subst h
            exact ⟨p.2, by simp [pySubscript, hfind], by simp [pySubscript, hp2, hfind2]⟩
        | jnull =>
          simp only [specField, hfind, hp2] at h
          exact Option.noConfusion h
        | jint n =>
          simp only [specField, hfind, hp2] at h
          exact Option.noConfusion h
        | jstr s =>
          simp only [specField, hfind, hp2] at h
          exact Option.noConfusion h
        | jarr xs =>
          simp only [specField, hfind, hp2] at h
          exact Option.noConfusion h
    | jnull => cases h
    | jint n => cases h
    | jstr s => cases h
    | jarr xs => cases h

/-- C6 fails as stated: a payload carrying the two count fields as JSON
strings — non-numeric values — is not rejected; `parse_counts`
succeeds and returns the strings unmodified (and their concatenation as
the "total").  No ParseError occurs and the results are not integers. -/
theorem parse_counts_nonnumeric_counterexample :
    parse_counts strPayload = .ok (.jstr "5", .jstr "6", .jstr "56") := rfl

/-- C6 amended.  The fetch stage fails exactly on an undecodable body; the
extraction fails exactly when one of the two field paths is absent or
passes through a non-object, or the two values cannot be added by Python
`+`; when it succeeds it returns the two extracted values unmodified with
no validation at all — they need not be integers. -/
theorem fetch_parse_characterization (data : JVal) :
    fetch_zone_data none = .error .jsonDecodeError ∧
    fetch_zone_data (some data) = .ok data ∧
    (∀ com net t, parse_counts data = .ok (com, net, t) ↔
      (specField data "comDomainNameBase" "domainNameCounts" = some com ∧
       specField data "netDomainNameBase" "domainNameCounts" = some net ∧
       pyAdd com net = .ok t)) := by
  refine ⟨rfl, rfl, ?_⟩
  intro com net t
  constructor
  · intro h
    cases hA : pySubscript data "comDomainNameBase" with
    | error e =>
      simp only [parse_counts, hA] at h
      exact Except.noConfusion h
    | ok comBase =>
      cases hB : pySubscript comBase "domainNameCounts" with
      | error e =>
        simp only [parse_counts, hA, hB] at h
        exact Except.noConfusion h
      | ok com' =>
        cases hC : pySubscript data "netDomainNameBase" with
        | error e =>
          simp only [parse_counts, hA, hB, hC] at h
          exact Except.noConfusion h
        | ok netBase =>
          cases hD : pySubscript netBase "domainNameCounts" with
          | error e =>
            simp only [parse_counts, hA, hB, hC, hD] at h
            exact Except.noConfusion h
          | ok net' =>
            cases hE : pyAdd com' net' with
            | error e =>
              simp only [parse_counts, hA, hB, hC, hD, hE] at h
              exact Except.noConfusion h
            | ok t' =>
              simp only [parse_counts, hA, hB, hC, hD, hE] at h
              injection h with h1
              injection h1.symm with hcom hrest
              injection hrest with hnet htot
              subst hcom
              subst hnet
              subst htot
              exact ⟨(pySubscript2_spec data _ _ com).mp ⟨comBase, hA, hB⟩,
                (pySubscript2_spec data _ _ net).mp ⟨netBase, hC, hD⟩, hE⟩
  · rintro ⟨h1, h2, h3⟩
    obtain ⟨cb, hA, hB⟩ := (pySubscript2_spec data _ _ com).mpr h1
    obtain ⟨nb, hC, hD⟩ := (pySubscript2_spec data _ _ net).mpr h2
    simp only [parse_counts, hA, hB, hC, hD, h3]

/-- Witness for the amended C6: the characterization applied at an
integer payload. -/
theorem fetch_parse_characterization_witness :
    parse_counts (intPayload 100 200) = .ok (.jint 100, .jint 200, .jint 300) :=
  ((fetch_parse_characterization (intPayload 100 200)).2.2
    (.jint 100) (.jint 200) (.jint 300)).mpr ⟨rfl, rfl, rfl⟩

/-! ## C10: the decision does not depend on today's date -/

theorem str_ext {a b : String} (h : a.data = b.data) : a = b :=
  congrArg String.mk h

theorem serializeRow_cons4 (t x y z : String) :
    serializeRow [t, x, y, z] = t ++ ("," ++ joinFields [x, y, z] ++ "\r\n") := by
  apply str_ext
  simp [serializeRow, joinFields, String.data_append, List.append_assoc]

/-- For fixed counts and file state, the append either fails identically
for every date, or writes `pre ++ today ++ mid` with `pre` and `mid`
independent of the date. -/
theorem append_today_shape (com net total : JVal) (file : Option String) :
    (∃ e, ∀ t, append_to_csv com net total t file = .error e) ∨
    (∃ pre mid, ∀ t, append_to_csv com net total t file = .ok (pre ++ (t ++ mid))) := by
  cases file with
  | none =>
    right
    refine ⟨headerLine, "," ++ joinFields [pyStr com, pyStr net, pyStr total] ++ "\r\n",
      fun t => ?_⟩
    rw [append_fresh com net total t none (Or.inl rfl), serializeRow_cons4]
  | some content =>
    cases hh : (csvRecords content).head? with
    | none =>
      right
      refine ⟨content ++ headerLine,
        "," ++ joinFields [pyStr com, pyStr net, pyStr total] ++ "\r\n", fun t => ?_⟩
      rw [append_no_records com net total t content hh, serializeRow_cons4,
        str_append_assoc]
    | some first =>
      cases hfh : first.head? with
      | none =>
        left
        have hfe : first = [] := List.head?_eq_none_iff.mp hfh
        subst hfe
        exact ⟨.indexError, fun t => append_blank_first_row com net total t content hh⟩
      | some c0 =>
        by_cases hd : pyLower c0 = "date"
        · right
          refine ⟨content, "," ++ joinFields [pyStr com, pyStr net, pyStr total] ++ "\r\n",
            fun t => ?_⟩
          rw [append_with_header com net total t content first c0 hh hfh hd,
            serializeRow_cons4]
        · right
          refine ⟨content ++ headerLine,
            "," ++ joinFields [pyStr com, pyStr net, pyStr total] ++ "\r\n", fun t => ?_⟩
          rw [append_without_header com net total t content first c0 hh hfh hd,
            serializeRow_cons4, str_append_assoc]

/-- C10.  The skip/append decision is independent of today's date: two
runs over the same body and file state that differ only in the date fail
identically, skip identically (leaving the same file), and when they
append they append the same three counts, the date appearing only as the
row's first field. -/
theorem decision_date_independent (body : Option JVal) (file : Option String)
    (t₁ t₂ : String) :
    (∀ e, main_run body t₁ file = .error e ↔ main_run body t₂ file = .error e) ∧
    (∀ f, main_run body t₁ file = .ok (.skipped, f) ↔
      main_run body t₂ file = .ok (.skipped, f)) ∧
    (∀ c₁, main_run body t₁ file = .ok (.appended, some c₁) →
      ∃ pre mid, c₁ = pre ++ (t₁ ++ mid) ∧
        main_run body t₂ file = .ok (.appended, some (pre ++ (t₂ ++ mid)))) := by
  cases hf : fetch_zone_data body with
  | error e0 =>
    have hE : ∀ t, main_run body t file = .error e0 := fun t => by
      simp [main_run, hf]
    refine ⟨fun e => by rw [hE t₁, hE t₂], fun f => by rw [hE t₁, hE t₂], fun c₁ hc => ?_⟩
    rw [hE t₁] at hc
    exact Except.noConfusion hc
  | ok data =>
    cases hp : parse_counts data with
    | error e0 =>
      have hE : ∀ t, main_run body t file = .error e0 := fun t => by
        simp [main_run, hf, hp]
      refine ⟨fun e => by rw [hE t₁, hE t₂], fun f => by rw [hE t₁, hE t₂], fun c₁ hc => ?_⟩
      rw [hE t₁] at hc
      exact Except.noConfusion hc
    | ok trip =>
      obtain ⟨com, net, total⟩ := trip
      cases hg : get_latest_row file with
      | error e0 =>
        have hE : ∀ t, main_run body t file = .error e0 := fun t => by
          simp [main_run, hf, hp, hg]
        refine ⟨fun e => by rw [hE t₁, hE t₂], fun f => by rw [hE t₁, hE t₂],
          fun c₁ hc => ?_⟩
        rw [hE t₁] at hc
        exact Except.noConfusion hc
      | ok latest =>
        have happend : (∀ t, main_run body t file =
              match append_to_csv com net total t file with
              | .error e => .error e
              | .ok c => .ok (.appended, some c)) →
            (∀ e, main_run body t₁ file = .error e ↔ main_run body t₂ file = .error e) ∧
            (∀ f, main_run body t₁ file = .ok (.skipped, f) ↔
              main_run body t₂ file = .ok (.skipped, f)) ∧
            (∀ c₁, main_run body t₁ file = .ok (.appended, some c₁) →
              ∃ pre mid, c₁ = pre ++ (t₁ ++ mid) ∧
                main_run body t₂ file = .ok (.appended, some (pre ++ (t₂ ++ mid)))) := by
          intro hE
          rcases append_today_shape com net total file with ⟨e0, ha⟩ | ⟨pre, mid, ha⟩
          · refine ⟨fun e => by rw [hE t₁, hE t₂, ha t₁, ha t₂],
              fun f => by rw [hE t₁, hE t₂, ha t₁, ha t₂], fun c₁ hc => ?_⟩
            rw [hE t₁, ha t₁] at hc
            exact Except.noConfusion hc
          · refine ⟨fun e => by rw [hE t₁, hE t₂, ha t₁, ha t₂]; simp,
              fun f => by rw [hE t₁, hE t₂, ha t₁, ha t₂]; simp, fun c₁ hc => ?_⟩
            rw [hE t₁, ha t₁] at hc
            simp only [Except.ok.injEq, Prod.mk.injEq, Option.some.injEq, true_and] at hc
            refine ⟨pre, mid, ?_, ?_⟩
            · exact hc.symm
            · rw [hE t₂, ha t₂]
        cases latest with
        | none =>
          exact happend (fun t => by
            simp only [main_run, hf, hp, hg])
        | some tr =>
          by_cases ht : pyTupleEq tr com net total = true
          · have hE : ∀ t, main_run body t file = .ok (.skipped, file) := fun t => by
              simp [main_run, hf, hp, hg, ht]
            refine ⟨fun e => by rw [hE t₁, hE t₂], fun f => by rw [hE t₁, hE t₂],
              fun c₁ hc => ?_⟩
            rw [hE t₁] at hc
            simp at hc
          · have ht' : pyTupleEq tr com net total = false := by simpa using ht
            exact happend (fun t => by
              simp only [main_run, hf, hp, hg, ht', Bool.false_eq_true, if_false])

/-- Witness for C10: the appended-run clause applied at two concrete
dates. -/
theorem decision_date_independent_witness :
    ∃ pre mid,
      "date,com,net,total\r\n2026-01-01,1,2,3\r\n" = pre ++ ("2026-01-01" ++ mid) ∧
      main_run (some (intPayload 1 2)) "2026-01-02" none =
        .ok (.appended, some (pre ++ ("2026-01-02" ++ mid))) :=
  (decision_date_independent (some (intPayload 1 2)) none "2026-01-01" "2026-01-02").2.2
    "date,com,net,total\r\n2026-01-01,1,2,3\r\n" (by decide)

example : parse_counts (intPayload 100 200) = .ok (.jint 100, .jint 200, .jint 300) := rfl
example : get_latest_row (some "date,com,net,total\r\n2026-01-01,1,2,3\r\n") =
    .ok (some (1, 2, 3)) := by decide
example : get_latest_row (some "\n") = .error .indexError := by decide
example : get_latest_row (some "") = .ok none := by decide
example : csvRecords "x,y\r\ndate,com,net,total\r\n" = [["x", "y"], ["date", "com", "net", "total"]] := by decide
